import Mathlib

/-!
# Verification of the DSFA server's parsing / extraction / retrieval core

Shallow embedding of the text-processing core of `server/src/index.ts`:
the citation extractor (`extractLegalReferences`), the law-URL registry
(`SWISS_LAW_URLS`), the DSG context retriever (`retrieveDsgContext` with
`tokenize`), the markdown cleaner (`cleanMarkdown`) and the LLM response
parser (`parseResponse`).

Strings are modelled as `List Char`.  JavaScript regular-expression
behaviour (leftmost match, greedy/lazy quantifiers with backtracking,
case-insensitive flags, global scans resuming after each match) is
translated into explicit executable scanners; each definition's doc
comment names the JS construct it embeds.
-/

/-- The characters the server's regexes treat as whitespace (`\s`):
ASCII blanks plus no-break space.  (The full JS `\s` class also contains
rarer Unicode space characters, which none of the analysed inputs use.) -/
def isWs (c : Char) : Bool :=
  c = ' ' || c = '\t' || c = '\n' || c = '\r' || c = '\x0b' || c = '\x0c' || c = ' '

/-- Case folding on code points, as used by `String.prototype.toLowerCase`
and the regex `i` flag on the character ranges the server matches:
ASCII `A`–`Z` plus the German umlauts `Ä`, `Ö`, `Ü`. -/
def lcaseNat (n : Nat) : Nat :=
  if 65 ≤ n ∧ n ≤ 90 then n + 32
  else if n = 196 then 228
  else if n = 214 then 246
  else if n = 220 then 252
  else n

/-- Upper-casing on code points (`String.prototype.toUpperCase` on the
ranges used by the server: ASCII plus `ä`, `ö`, `ü`). -/
def ucaseNat (n : Nat) : Nat :=
  if 97 ≤ n ∧ n ≤ 122 then n - 32
  else if n = 228 then 196
  else if n = 246 then 214
  else if n = 252 then 220
  else n

def lcase (c : Char) : Char := Char.ofNat (lcaseNat c.toNat)

def ucase (c : Char) : Char := Char.ofNat (ucaseNat c.toNat)

def lcaseL (s : List Char) : List Char := s.map lcase

def ucaseL (s : List Char) : List Char := s.map ucase

/-- Case-insensitive prefix match: if (under `lcase`) `s` starts with
`pat`, return the actually consumed characters of `s` (original case)
and the remainder. -/
def ciStarts : List Char → List Char → Option (List Char × List Char)
  | [], s => some ([], s)
  | _ :: _, [] => none
  | p :: ps, c :: cs =>
    if lcase c = lcase p then
      (ciStarts ps cs).map (fun ar => (c :: ar.1, ar.2))
    else none

/-- `true` iff `pat` occurs case-insensitively anywhere in `s`. -/
def containsCi (pat : List Char) : List Char → Bool
  | [] => (ciStarts pat []).isSome
  | s@(_ :: tail) => (ciStarts pat s).isSome || containsCi pat tail

/-- JS `String.prototype.trim`: strip leading and trailing whitespace. -/
def trimStr (s : List Char) : List Char :=
  ((s.dropWhile isWs).reverse.dropWhile isWs).reverse

/-- JS `str.split('\n')` (also used for `split(':')` via `List.splitOn`). -/
def splitNl (s : List Char) : List (List Char) := s.splitOn '\n'

/-!
## Context Retriever (`tokenize`, `retrieveDsgContext`, index.ts lines 59-135)
-/

/-- A DSG statute article as loaded from `dsg.xml` (`type DsgArticle`). -/
structure DsgArticle where
  id : List Char
  heading : List Char
  text : List Char
  deriving DecidableEq, Repr

/-- Membership of a character in the regex class `[a-zäöüöäß]` with the
`i` flag (the input is already lower-cased before matching). -/
def isTokChar (c : Char) : Bool :=
  ('a' ≤ c && c ≤ 'z') || ('A' ≤ c && c ≤ 'Z') ||
  c = 'ä' || c = 'ö' || c = 'ü' || c = 'ß' || c = 'Ä' || c = 'Ö' || c = 'Ü'

theorem length_dropWhile_le (p : Char → Bool) (cs : List Char) :
    (cs.dropWhile p).length ≤ cs.length := by
  induction cs with
  | nil => simp
  | cons c cs ih =>
    simp only [List.dropWhile_cons]
    split
    · exact Nat.le_trans ih (Nat.le_succ _)
    · simp

/-- Maximal runs of characters satisfying `p` (how a global regex
`/[class]+/g` decomposes a string into matches).  `fuel` bounds the
number of scan steps; each step consumes at least one character, so
`s.length` steps always suffice. -/
def runsOf (p : Char → Bool) : Nat → List Char → List (List Char)
  | 0, _ => []
  | _, [] => []
  | fuel + 1, c :: cs =>
    if p c then
      (c :: cs.takeWhile p) :: runsOf p fuel (cs.dropWhile p)
    else runsOf p fuel cs

/-- `tokenize` (index.ts line 59): lower-case the value, take all maximal
runs matching `[a-zäöüöäß]+` (the subsequent `.map(trim).filter(Boolean)`
is the identity on such runs, and is applied here as in the source). -/
def tokenize (value : List Char) : List (List Char) :=
  ((runsOf isTokChar value.length (lcaseL value)).map trimStr).filter (fun t => !t.isEmpty)

/-- The scored pairs built by `DSG_ARTICLES.map(...)` inside
`retrieveDsgContext`: the overlap counter increments once per query
token (occurrences included) found in the article's token set. -/
def articleScore (queryTokens : List (List Char)) (article : DsgArticle) : Nat :=
  queryTokens.foldl
    (fun overlap token => if (tokenize article.text).contains token then overlap + 1 else overlap) 0

/-- One insertion step of a stable descending sort by score: the new
element goes after every already-placed element of score ≥ its own. -/
def insertDesc (x : DsgArticle × Nat) : List (DsgArticle × Nat) → List (DsgArticle × Nat)
  | [] => [x]
  | y :: ys => if y.2 < x.2 then x :: y :: ys else y :: insertDesc x ys

/-- `scores.sort((a, b) => b.score - a.score)`: JS `Array.prototype.sort`
is stable, so it orders by score descending and keeps the original order
inside each score class; realised as a stable insertion sort. -/
def sortByScoreDesc (l : List (DsgArticle × Nat)) : List (DsgArticle × Nat) :=
  l.foldl (fun acc x => insertDesc x acc) []

/-- `retrieveDsgContext` (index.ts lines 116-135), with the module-level
`DSG_ARTICLES` collection passed explicitly. -/
def retrieveDsgContext (articles : List DsgArticle) (query : List Char) (limit : Nat) :
    List DsgArticle :=
  if articles.isEmpty then []
  else
    let queryTokens := tokenize query
    if queryTokens.isEmpty then []
    else
      let scores := articles.map (fun article => (article, articleScore queryTokens article))
      ((((sortByScoreDesc (scores.filter (fun s => 0 < s.2)))).take limit).map (fun s => s.1))

/-!
## Markdown cleaner (`cleanMarkdown`, index.ts lines 431-446)

Each `replace(/…/g, …)` is a left-to-right scan over the input that
rewrites every non-overlapping leftmost match and resumes after it.
-/

/-- The backtick character (U+0060). -/
def btick : Char := Char.ofNat 96

/-- One match of `/\*\*([^*]+)\*\*/` at the head of `s`: `**`, a maximal
nonempty star-free run, then `**`; returns (captured run, remainder). -/
def matchBoldAt (s : List Char) : Option (List Char × List Char) :=
  match s with
  | c1 :: c2 :: rest =>
    if c1 = '*' && c2 = '*' then
      let inner := rest.takeWhile (fun c => !(c = '*'))
      if inner.isEmpty then none
      else
        match rest.dropWhile (fun c => !(c = '*')) with
        | d1 :: d2 :: rest2 => if d1 = '*' && d2 = '*' then some (inner, rest2) else none
        | _ => none
    else none
  | _ => none

/-- `.replace(/\*\*([^*]+)\*\*/g, '$1')`. -/
def stripBold : Nat → List Char → List Char
  | 0, s => s
  | _, [] => []
  | fuel + 1, c :: cs =>
    match matchBoldAt (c :: cs) with
    | some (inner, rest) => inner ++ stripBold fuel rest
    | none => c :: stripBold fuel cs

/-- One match of `/X([^X]+)X/` at the head of `s` (used for `*…*`,
`_…_` and the backtick code span). -/
def matchDelimAt (d : Char) (s : List Char) : Option (List Char × List Char) :=
  match s with
  | c :: rest =>
    if c = d then
      let inner := rest.takeWhile (fun c => !(c = d))
      if inner.isEmpty then none
      else
        match rest.dropWhile (fun c => !(c = d)) with
        | e :: rest2 => if e = d then some (inner, rest2) else none
        | _ => none
    else none
  | _ => none

/-- `.replace(/\*([^*]+)\*/g, '$1')`, `.replace(/_([^_]+)_/g, '$1')` and
`` .replace(/`([^`]+)`/g, '$1') `` according to the delimiter `d`. -/
def stripDelim (d : Char) : Nat → List Char → List Char
  | 0, s => s
  | _, [] => []
  | fuel + 1, c :: cs =>
    match matchDelimAt d (c :: cs) with
    | some (inner, rest) => inner ++ stripDelim d fuel rest
    | none => c :: stripDelim d fuel cs

/-- Does `s` start with three backticks? -/
def isFenceHead (s : List Char) : Bool :=
  match s with
  | c1 :: c2 :: c3 :: _ => c1 = btick && c2 = btick && c3 = btick
  | _ => false

/-- The lazy `[\s\S]*?` scan of the code-fence regex: find the nearest
closing ``` and return what follows it. -/
def findFenceClose : List Char → Option (List Char)
  | [] => none
  | s@(_ :: tail) => if isFenceHead s then some (s.drop 3) else findFenceClose tail

/-- One match of ``/```[\s\S]*?```/`` at the head of `s`: the remainder
after the closing fence (the whole match is replaced by nothing). -/
def matchFenceAt (s : List Char) : Option (List Char) :=
  if isFenceHead s then findFenceClose (s.drop 3) else none

/-- ``.replace(/```[\s\S]*?```/g, '')``. -/
def stripFence : Nat → List Char → List Char
  | 0, s => s
  | _, [] => []
  | fuel + 1, c :: cs =>
    match matchFenceAt (c :: cs) with
    | some rest => stripFence fuel rest
    | none => c :: stripFence fuel cs

/-- One match of `/^#{1,6}\s+/m` at a line start: one to six `#` (a run
of seven or more never matches) followed by at least one whitespace
character; returns the remainder and whether the last removed character
was a newline (which makes the resume point a line start again). -/
def matchHeaderAt (s : List Char) : Option (List Char × Bool) :=
  let hs := s.takeWhile (fun c => c = '#')
  if hs.isEmpty || 6 < hs.length then none
  else
    let rest := s.dropWhile (fun c => c = '#')
    let ws := rest.takeWhile isWs
    if ws.isEmpty then none
    else some (rest.dropWhile isWs, ws.getLast? = some '\n')

/-- `.replace(/^#{1,6}\s+/gm, '')`: the flag tracks whether the current
position is a line start (offset 0 or just after a newline). -/
def stripHeaders (atLineStart : Bool) : Nat → List Char → List Char
  | 0, s => s
  | _, [] => []
  | fuel + 1, c :: cs =>
    if atLineStart then
      match matchHeaderAt (c :: cs) with
      | some (rest, nl) => stripHeaders nl fuel rest
      | none => c :: stripHeaders (c = '\n') fuel cs
    else c :: stripHeaders (c = '\n') fuel cs

/-- `.replace(/\n{3,}/g, '\n\n')`: a maximal run of three or more
newlines collapses to two. -/
def collapseNl : Nat → List Char → List Char
  | 0, s => s
  | _, [] => []
  | fuel + 1, c :: cs =>
    if c = '\n' && 2 ≤ (cs.takeWhile (fun x => x = '\n')).length then
      '\n' :: '\n' :: collapseNl fuel (cs.dropWhile (fun x => x = '\n'))
    else c :: collapseNl fuel cs

/-- `cleanMarkdown` (index.ts lines 431-446): the guard `if (!text)`
returns empty input unchanged; then the seven chained `replace` passes
and the final `trim`, in source order. -/
def cleanMarkdown (s : List Char) : List Char :=
  if s.isEmpty then s
  else
    trimStr (collapseNl (s.length + 1)
      (stripHeaders true (s.length + 1)
        (stripDelim btick (s.length + 1)
          (stripFence (s.length + 1)
            (stripDelim '_' (s.length + 1)
              (stripDelim '*' (s.length + 1)
                (stripBold (s.length + 1) s)))))))

/-!
## Citation Extractor (`extractLegalReferences`, index.ts lines 180-278)

The five citation patterns all have the shape
`/Art\.\s*(\d+[a-z]?)\s*(?:Abs\.\s*(\d+))?\s*(ABBR|FULLNAME)/gi`.
A match is decomposed into its consumed pieces so that the full matched
substring (`match[0]`) is their concatenation.
-/

/-- One citation grammar: the two alternatives of the law group, in the
source's alternation order (abbreviation first). -/
structure Grammar where
  abbr : List Char
  full : List Char
  deriving DecidableEq, Repr

/-- The five patterns of `extractLegalReferences`, in source order. -/
def grammars : List Grammar :=
  [⟨"DSG".data, "Datenschutzgesetz".data⟩,
   ⟨"ZGB".data, "Zivilgesetzbuch".data⟩,
   ⟨"OR".data, "Obligationenrecht".data⟩,
   ⟨"BV".data, "Bundesverfassung".data⟩,
   ⟨"StGB".data, "Strafgesetzbuch".data⟩]

/-- The optional `(?:Abs\.\s*(\d+))?` group, decomposed: the characters
matching `Abs\.`, the following whitespace, the paragraph digits, and
the whitespace before the law token. -/
structure AbsPart where
  absTok : List Char
  ws3 : List Char
  pDigits : List Char
  ws4 : List Char
  deriving DecidableEq, Repr

/-- One pattern match, decomposed into its consumed pieces. -/
structure Cite where
  artTok : List Char
  ws1 : List Char
  digits : List Char
  letterOpt : Option Char
  ws2 : List Char
  absPart : Option AbsPart
  lawTok : List Char
  deriving DecidableEq, Repr

/-- `match[1]`: the article number with its optional letter suffix. -/
def Cite.article (c : Cite) : List Char :=
  c.digits ++ c.letterOpt.toList

/-- `match[2]`: the optional paragraph number. -/
def Cite.paragraph (c : Cite) : Option (List Char) :=
  c.absPart.map (fun a => a.pDigits)

/-- The characters consumed by the optional `Abs.` group. -/
def AbsPart.flat (a : AbsPart) : List Char :=
  a.absTok ++ a.ws3 ++ a.pDigits ++ a.ws4

/-- `match[0]`: the full matched substring. -/
def Cite.text (c : Cite) : List Char :=
  c.artTok ++ c.ws1 ++ c.digits ++ c.letterOpt.toList ++
    c.ws2 ++ (c.absPart.elim [] AbsPart.flat) ++ c.lawTok

/-- The law group `(ABBR|FULLNAME)` with the `i` flag: the abbreviation
alternative is tried first. -/
def matchLaw (g : Grammar) (s : List Char) : Option (List Char × List Char) :=
  match ciStarts g.abbr s with
  | some r => some r
  | none => ciStarts g.full s

/-- The pattern tail `\s*(?:Abs\.\s*(\d+))?\s*(LAW)` starting at `s`,
given the pieces already consumed.  The optional group is greedy: the
`Abs.`-branch is tried first and the group is skipped only if that
branch cannot complete (no other backtracking can succeed, since the
runs `\s*` and `\d+` stop at characters no later pattern part accepts). -/
def matchCiteTail (artTok ws1 digits : List Char) (letterOpt : Option Char) (g : Grammar)
    (s : List Char) : Option (Cite × List Char) :=
  let ws2 := s.takeWhile isWs
  let s2 := s.dropWhile isWs
  let absTry : Option (Cite × List Char) :=
    match ciStarts ("Abs.".data) s2 with
    | none => none
    | some (absTok, s3) =>
      let ws3 := s3.takeWhile isWs
      let s4 := s3.dropWhile isWs
      let pds := s4.takeWhile Char.isDigit
      if pds.isEmpty then none
      else
        let s5 := s4.dropWhile Char.isDigit
        let ws4 := s5.takeWhile isWs
        let s6 := s5.dropWhile isWs
        match matchLaw g s6 with
        | none => none
        | some (law, rest) =>
          some (⟨artTok, ws1, digits, letterOpt, ws2, some ⟨absTok, ws3, pds, ws4⟩, law⟩, rest)
  match absTry with
  | some r => some r
  | none =>
    match matchLaw g s2 with
    | none => none
    | some (law, rest) => some (⟨artTok, ws1, digits, letterOpt, ws2, none, law⟩, rest)

/-- A whole-pattern match attempt at the start of `s`: `Art\.` (case
insensitive), whitespace, the digit run of `\d+` (greedy), then the
optional `[a-z]?` letter — tried greedily, with fallback to the
letterless parse when the tail fails after it. -/
def matchCiteAt (g : Grammar) (s : List Char) : Option (Cite × List Char) :=
  match ciStarts ("Art.".data) s with
  | none => none
  | some (artTok, s1) =>
    let ws1 := s1.takeWhile isWs
    let s1b := s1.dropWhile isWs
    let ds := s1b.takeWhile Char.isDigit
    if ds.isEmpty then none
    else
      let s2 := s1b.dropWhile Char.isDigit
      match s2 with
      | c :: rest =>
        if c.isAlpha then
          match matchCiteTail artTok ws1 ds (some c) g rest with
          | some r => some r
          | none => matchCiteTail artTok ws1 ds none g s2
        else matchCiteTail artTok ws1 ds none g s2
      | [] => matchCiteTail artTok ws1 ds none g []

/-- The `while ((match = pattern.exec(text)) !== null)` loop: leftmost
matches, resuming each scan at `lastIndex` (the end of the previous
match).  `fuel` bounds the number of steps; every step either consumes
the scan position or a whole (non-empty) match, so `s.length` steps
always suffice. -/
def scanCites (g : Grammar) : Nat → List Char → List Cite
  | 0, _ => []
  | _, [] => []
  | fuel + 1, s@(_ :: tail) =>
    match matchCiteAt g s with
    | some (cite, rest) => cite :: scanCites g fuel rest
    | none => scanCites g fuel tail

/-- All matches of all five patterns, in grammar-then-position order
(the outer `patterns.forEach` of index.ts lines 247-270). -/
def allMatches (t : List Char) : List Cite :=
  (grammars.map (fun g => scanCites g t.length t)).flatten

/-- `SWISS_LAW_URLS` (index.ts lines 190-218). -/
def SWISS_LAW_URLS : List (List Char × List Char) :=
  [("BV".data, "https://www.fedlex.admin.ch/eli/cc/1999/404/de".data),
   ("Bundesverfassung".data, "https://www.fedlex.admin.ch/eli/cc/1999/404/de".data),
   ("SR 101".data, "https://www.fedlex.admin.ch/eli/cc/1999/404/de".data),
   ("ZGB".data, "https://www.fedlex.admin.ch/eli/cc/24/233_245_233/de".data),
   ("Zivilgesetzbuch".data, "https://www.fedlex.admin.ch/eli/cc/24/233_245_233/de".data),
   ("SR 210".data, "https://www.fedlex.admin.ch/eli/cc/24/233_245_233/de".data),
   ("OR".data, "https://www.fedlex.admin.ch/eli/cc/27/317_321_377/de".data),
   ("Obligationenrecht".data, "https://www.fedlex.admin.ch/eli/cc/27/317_321_377/de".data),
   ("SR 220".data, "https://www.fedlex.admin.ch/eli/cc/27/317_321_377/de".data),
   ("DSG".data, "https://www.fedlex.admin.ch/eli/cc/2022/491/de".data),
   ("Datenschutzgesetz".data, "https://www.fedlex.admin.ch/eli/cc/2022/491/de".data),
   ("DSG 2023".data, "https://www.fedlex.admin.ch/eli/cc/2022/491/de".data),
   ("SR 235.1".data, "https://www.fedlex.admin.ch/eli/cc/2022/491/de".data),
   ("StGB".data, "https://www.fedlex.admin.ch/eli/cc/54/757_781_799/de".data),
   ("Strafgesetzbuch".data, "https://www.fedlex.admin.ch/eli/cc/54/757_781_799/de".data),
   ("SR 311.0".data, "https://www.fedlex.admin.ch/eli/cc/54/757_781_799/de".data)]

/-- JS object property lookup on the registry. -/
def lawUrl (key : List Char) : Option (List Char) :=
  (SWISS_LAW_URLS.find? (fun p => p.1 == key)).map (fun p => p.2)

/-- The result record (interface `LegalReference`, index.ts lines
221-227; `article` is always populated by the patterns). -/
structure LegalReference where
  law : List Char
  article : List Char
  paragraph : Option (List Char)
  text : List Char
  url : List Char
  deriving DecidableEq, Repr

/-- The per-match body of the exec loop (index.ts lines 250-268):
resolve the law token in the registry — exactly as written, first by the
matched token, then upper-cased — and build the reference, appending the
`#art_N` anchor when an article number is present; an unresolved law
token produces nothing. -/
def resolveCite (c : Cite) : Option LegalReference :=
  match (match lawUrl c.lawTok with
         | some u => some u
         | none => lawUrl (ucaseL c.lawTok)) with
  | none => none
  | some baseUrl =>
    some ⟨c.lawTok, c.article, c.paragraph, c.text,
          if c.article.isEmpty then baseUrl else baseUrl ++ "#art_".data ++ c.article⟩

/-- The `references` array after the five exec loops. -/
def citeReferences (t : List Char) : List LegalReference :=
  (allMatches t).filterMap resolveCite

/-- JS `Array.prototype.filter` with the element index, over a fixed
backing list (used by the dedupe step). -/
def filterWithIdx (p : Nat → LegalReference → Bool) : Nat → List LegalReference →
    List LegalReference
  | _, [] => []
  | i, x :: xs => if p i x then x :: filterWithIdx p (i + 1) xs else filterWithIdx p (i + 1) xs

/-- The dedupe of index.ts lines 273-275:
`references.filter((ref, index, self) => index === self.findIndex((r) => r.text === ref.text))`. -/
def uniqueRefs (refs : List LegalReference) : List LegalReference :=
  filterWithIdx (fun i r => refs.findIdx (fun x => x.text == r.text) == i) 0 refs

/-- `extractLegalReferences` (index.ts lines 229-278). -/
def extractLegalReferences (t : List Char) : List LegalReference :=
  uniqueRefs (citeReferences t)

/-!
## Response Parser (`parseResponse`, index.ts lines 449-566)

Every section regex has the shape
`LABEL:\s*(capture-lazy)(?=(?:STOP1|…|$))` with the `i` (and for the
capture, dot-matches-all) flags.  Matching at a given start position is
deterministic: the greedy `\s*` run is maximal (backing off one final
whitespace character only when nothing is left for the mandatory
non-empty lazy capture, whose lookahead `$` alternative then holds at
the end of input), and the lazy capture extends to the first position,
at least one character in, where a stop label matches case-insensitively
or the input ends.
-/

/-- Does one of `stops` match case-insensitively at this position? -/
def stopsAt (stops : List (List Char)) (s : List Char) : Bool :=
  stops.any (fun p => (ciStarts p s).isSome)

/-- The body of the lazy capture after its mandatory first character:
everything up to the first stop-label position (or end of input). -/
def takeUntilStop (stops : List (List Char)) : List Char → List Char
  | [] => []
  | s@(c :: cs) => if stopsAt stops s then [] else c :: takeUntilStop stops cs

/-- A section-header recogniser: given the text at the current scan
position, the number of characters the header (through its colon)
consumes there, if it matches. -/
def HeaderFn : Type := List Char → Option Nat

/-- Header of the form `(?:LABEL1|LABEL2):` — each entry of `labels`
already ends with the colon; alternatives are tried in order. -/
def plainHeader (labels : List (List Char)) : HeaderFn := fun s =>
  labels.findSome? (fun p => (ciStarts p s).map (fun _ => p.length))

/-- Header of the form `LABEL[^:]*:` — the greedy `[^:]*` cannot cross a
colon, so it runs exactly to the first colon after the label, which the
pattern then consumes. -/
def colonHeader (label : List Char) : HeaderFn := fun s =>
  match ciStarts label s with
  | none => none
  | some (_, rest) =>
    let pre := rest.takeWhile (fun c => !(c = ':'))
    match rest.dropWhile (fun c => !(c = ':')) with
    | ':' :: _ => some (label.length + pre.length + 1)
    | _ => none

/-- Header of the form `FIRST[^:]*SECOND[^:]*:` — both `[^:]*` runs stay
before the first colon after `FIRST`, so the header matches exactly when
`SECOND` occurs (case-insensitively) between `FIRST` and that colon, and
it always consumes through that colon. -/
def twoTokenHeader (first second : List Char) : HeaderFn := fun s =>
  match ciStarts first s with
  | none => none
  | some (_, rest) =>
    let pre := rest.takeWhile (fun c => !(c = ':'))
    match rest.dropWhile (fun c => !(c = ':')) with
    | ':' :: _ => if containsCi second pre then some (first.length + pre.length + 1) else none
    | _ => none

/-- The whole-string scan of `response.match(regex)`: try the header at
each position from the left; on a header match, `\s*` then the lazy
capture as described above (advancing to the next start position when
nothing at all follows the colon, where the regex fails).  Returns
`match[1]`. -/
def sectionScan (header : HeaderFn) (stops : List (List Char)) : Nat → List Char →
    Option (List Char)
  | 0, _ => none
  | _, [] => none
  | fuel + 1, s@(_ :: tail) =>
    match header s with
    | some k =>
      let rest := s.drop k
      let w := rest.takeWhile isWs
      let body := rest.dropWhile isWs
      match body with
      | b :: bs => some (b :: takeUntilStop stops bs)
      | [] =>
        match w.getLast? with
        | some c => some [c]
        | none => sectionScan header stops fuel tail
    | none => sectionScan header stops fuel tail

/-- `response.match(/(?:SUMMARY|ZUSAMMENFASSUNG):\s*(.+?)(?=(?:BESCHREIBUNG|DESCRIPTION|BRUTTORISIKEN|RISK_LEVEL|$))/is)`. -/
def summaryScan (r : List Char) : Option (List Char) :=
  sectionScan (plainHeader ["summary:".data, "zusammenfassung:".data])
    ["beschreibung".data, "description".data, "bruttorisiken".data, "risk_level".data]
    r.length r

/-- `response.match(/BESCHREIBUNG[^:]*:\s*(.+?)(?=(?:POTENTIELL|BRUTTORISIKEN|MASSNAHMEN|$))/is)`. -/
def descriptionScan (r : List Char) : Option (List Char) :=
  sectionScan (colonHeader ("beschreibung".data))
    ["potentiell".data, "bruttorisiken".data, "massnahmen".data] r.length r

/-- `response.match(/POTENTIELL[^:]*BRUTTORISIKEN[^:]*:\s*(.+?)(?=(?:GEPLANTE|MASSNAHMEN|NETTORISIKEN|$))/is)`. -/
def bruttorisikenScan (r : List Char) : Option (List Char) :=
  sectionScan (twoTokenHeader ("potentiell".data) ("bruttorisiken".data))
    ["geplante".data, "massnahmen".data, "nettorisiken".data] r.length r

/-- `response.match(/GEPLANTE[^:]*MASSNAHMEN[^:]*:\s*(.+?)(?=(?:VERBLEIBENDE|NETTORISIKEN|ERGEBNIS|RISK_LEVEL|EMPFEHLUNGEN|$))/is)`. -/
def massnahmenScan (r : List Char) : Option (List Char) :=
  sectionScan (twoTokenHeader ("geplante".data) ("massnahmen".data))
    ["verbleibende".data, "nettorisiken".data, "ergebnis".data, "risk_level".data,
     "empfehlungen".data] r.length r

/-- `response.match(/VERBLEIBENDE[^:]*NETTORISIKEN[^:]*:\s*(.+?)(?=(?:ERGEBNIS|RISK_LEVEL|EMPFEHLUNGEN|$))/is)`. -/
def nettorisikenScan (r : List Char) : Option (List Char) :=
  sectionScan (twoTokenHeader ("verbleibende".data) ("nettorisiken".data))
    ["ergebnis".data, "risk_level".data, "empfehlungen".data] r.length r

/-- `response.match(/ERGEBNIS:\s*(.+?)(?=(?:RISK_LEVEL|EMPFEHLUNGEN|$))/is)`. -/
def ergebnisScan (r : List Char) : Option (List Char) :=
  sectionScan (plainHeader ["ergebnis:".data]) ["risk_level".data, "empfehlungen".data]
    r.length r

/-- `response.match(/EMPFEHLUNGEN:\s*([\s\S]+?)(?=(?:RISK_LEVEL|$))/i)`. -/
def empfehlungenScan (r : List Char) : Option (List Char) :=
  sectionScan (plainHeader ["empfehlungen:".data]) ["risk_level".data] r.length r

/-- `response.match(/RECOMMENDATIONS:\s*([\s\S]+?)(?=\n\n|$)/i)`. -/
def recommendationsScan (r : List Char) : Option (List Char) :=
  sectionScan (plainHeader ["recommendations:".data]) ["\n\n".data] r.length r

/-- The closed vocabulary `(LOW|MEDIUM|HIGH)` of the risk pattern, tried
in alternation order; returns the actually matched characters. -/
def riskWordAt (s : List Char) : Option (List Char) :=
  (["LOW".data, "MEDIUM".data, "HIGH".data]).findSome? (fun p => (ciStarts p s).map (fun a => a.1))

/-- `response.match(/RISK_LEVEL:\s*(LOW|MEDIUM|HIGH)/i)`: at each
position from the left, the label, then maximal whitespace (no shorter
run can put a vocabulary word where a whitespace character stands), then
one of the three words; otherwise move on.  Returns `match[1]`. -/
def riskScan : Nat → List Char → Option (List Char)
  | 0, _ => none
  | _, [] => none
  | fuel + 1, s@(_ :: tail) =>
    match ciStarts ("risk_level:".data) s with
    | some (_, rest) =>
      match riskWordAt (rest.dropWhile isWs) with
      | some w => some w
      | none => riskScan fuel tail
    | none => riskScan fuel tail

/-!
## Recommendation extraction (three tiers, index.ts lines 491-549)
-/

/-- `line.replace(/^[\d]+[\.\)]\s*/, '')`: a greedy digit run, one of
`.` `)`, then whitespace, removed from the front (no other split of the
digit run can match, since `.`/`)` are not digits). -/
def stripNumMarker (l : List Char) : List Char :=
  let ds := l.takeWhile Char.isDigit
  if ds.isEmpty then l
  else
    match l.dropWhile Char.isDigit with
    | c :: rest => if c = '.' || c = ')' then rest.dropWhile isWs else l
    | [] => l

/-- `line.replace(/^[\(][a-zA-Z][\)]\s*/, '')`. -/
def stripParenMarker (l : List Char) : List Char :=
  match l with
  | '(' :: c :: ')' :: rest => if c.isAlpha then rest.dropWhile isWs else l
  | _ => l

/-- `line.replace(/^[-•*]\s*/, '')`. -/
def stripBulletMarker (l : List Char) : List Char :=
  match l with
  | c :: rest => if c = '-' || c = '•' || c = '*' then rest.dropWhile isWs else l
  | [] => l

/-- The three marker replaces in source order, then `.trim()` (the tier
1 and tier 3 per-line step). -/
def stripMarkers (l : List Char) : List Char :=
  trimStr (stripBulletMarker (stripParenMarker (stripNumMarker l)))

/-- `line.match(/^[\d]+[\.\)]\s+|^[\(][a-zA-Z][\)]\s+|^[-•*]\s+/)` (the
tier-2 marker test; note `\s+`, at least one whitespace character). -/
def hasLineMarker (l : List Char) : Bool :=
  (let ds := l.takeWhile Char.isDigit
   !ds.isEmpty &&
     (match l.dropWhile Char.isDigit with
      | c :: w :: _ => (c = '.' || c = ')') && isWs w
      | _ => false)) ||
  (match l with
   | '(' :: c :: ')' :: w :: _ => c.isAlpha && isWs w
   | _ => false) ||
  (match l with
   | c :: w :: _ => (c = '-' || c = '•' || c = '*') && isWs w
   | _ => false)

/-- `line.match(/^[\(][\d]+[\)]\s*$/)`: a bare parenthesised number
(with `$` at the true end of input — no `m` flag). -/
def isBareParenNum (l : List Char) : Bool :=
  match l with
  | '(' :: rest =>
    let ds := rest.takeWhile Char.isDigit
    !ds.isEmpty &&
      (match rest.dropWhile Char.isDigit with
       | ')' :: r2 => r2.all isWs
       | _ => false)
  | _ => false

/-- Tier 1 (index.ts lines 495-509): the recommendations produced from a
matched `EMPFEHLUNGEN` section — cleaned, split on newlines, markers
stripped, noise filtered (length ≤ 10 or bare parenthesised numbers),
capped at 10.  Yields `[]` when the section is absent. -/
def tier1Recs (r : List Char) : List (List Char) :=
  match empfehlungenScan r with
  | none => []
  | some cap =>
    ((((splitNl (cleanMarkdown cap)).map stripMarkers).filter
        (fun line => 10 < line.length && !(isBareParenNum line))).take 10)

/-- The tier-2 per-line mapper (index.ts lines 516-531): clean the line;
if it starts with a recognised marker, strip the markers and keep what
follows the first colon (the whole line when it has no colon); otherwise
produce nothing. -/
def tier2Line (line0 : List Char) : Option (List Char) :=
  let line := cleanMarkdown line0
  if hasLineMarker line then
    let l2 := stripBulletMarker (stripParenMarker (stripNumMarker line))
    let parts := l2.splitOn ':'
    if 1 < parts.length then some (trimStr (List.intercalate [':'] (parts.drop 1)))
    else some (trimStr l2)
  else none

/-- Tier 2 (index.ts lines 512-534): recommendations extracted from the
`massnahmen` section text — per line via `tier2Line`, length-filtered,
capped at 10. -/
def tier2Recs (m : List Char) : List (List Char) :=
  (((splitNl m).filterMap tier2Line).filter (fun line => 10 < line.length)).take 10

/-- Tier 3 (index.ts lines 537-549): the legacy `RECOMMENDATIONS`
format — when the section is absent the source splits the empty string,
whose pieces are all dropped by the positive-length filter. -/
def tier3Recs (r : List Char) : List (List Char) :=
  let txt := match recommendationsScan r with
             | some cap => cleanMarkdown cap
             | none => []
  ((splitNl txt).map stripMarkers).filter (fun line => 0 < line.length)

/-!
## `parseResponse` (index.ts lines 449-566)
-/

/-- The structured result of `parseResponse` (its return type at
index.ts lines 449-460). -/
structure ParsedResponse where
  summary : List Char
  riskLevel : List Char
  analysis : List Char
  recommendations : List (List Char)
  legalReferences : List LegalReference
  description : Option (List Char)
  bruttorisiken : Option (List Char)
  massnahmen : Option (List Char)
  nettorisiken : Option (List Char)
  ergebnis : Option (List Char)
  deriving DecidableEq, Repr

/-- The `massnahmen` field: matched section text, trimmed and cleaned. -/
def massnahmenField (r : List Char) : Option (List Char) :=
  (massnahmenScan r).map (fun cap => cleanMarkdown (trimStr cap))

/-- The recommendations value before the final placeholder substitution:
tier 1, else tier 2 (only when the `massnahmen` field is a non-empty —
JS-truthy — string), else tier 3. -/
def recsOf (r : List Char) : List (List Char) :=
  let t1 := tier1Recs r
  if t1.isEmpty then
    let t2 := match massnahmenField r with
              | some m => if m.isEmpty then [] else tier2Recs m
              | none => []
    if t2.isEmpty then tier3Recs r else t2
  else t1

/-- `riskMatch ? riskMatch[1].toUpperCase() : 'UNKNOWN'`. -/
def riskLevelOf (r : List Char) : List Char :=
  match riskScan r.length r with
  | some w => ucaseL w
  | none => "UNKNOWN".data

/-- `parseResponse` (index.ts lines 449-566). -/
def parseResponse (r : List Char) : ParsedResponse where
  summary := match summaryScan r with
             | some cap => cleanMarkdown (trimStr cap)
             | none => "Keine Zusammenfassung vorhanden.".data
  riskLevel := riskLevelOf r
  analysis := r
  recommendations :=
    let recs := recsOf r
    if recs.isEmpty then ["Keine Empfehlungen vorhanden.".data] else recs
  legalReferences := extractLegalReferences r
  description := (descriptionScan r).map (fun cap => cleanMarkdown (trimStr cap))
  bruttorisiken := (bruttorisikenScan r).map (fun cap => cleanMarkdown (trimStr cap))
  massnahmen := massnahmenField r
  nettorisiken := (nettorisikenScan r).map (fun cap => cleanMarkdown (trimStr cap))
  ergebnis := (ergebnisScan r).map (fun cap => cleanMarkdown (trimStr cap))

/-!
## Claim theorems
-/

/-- **C3.** For the reply `SUMMARY: Hello. RISK_LEVEL: HIGH
RECOMMENDATIONS:` followed by the lines `- Do X (Art. 5 DSG)` and
`- Do Y`, `parseResponse` returns summary `"Hello."`, risk level
`"HIGH"`, and exactly the two recommendations `"Do X (Art. 5 DSG)"`
and `"Do Y"` — the 4-character entry `"Do Y"` is kept. -/
theorem parseResponse_summary_risk_recommendations :
    (parseResponse
        ("SUMMARY: Hello. RISK_LEVEL: HIGH RECOMMENDATIONS:\n- Do X (Art. 5 DSG)\n- Do Y".data)).summary
        = "Hello.".data ∧
    (parseResponse
        ("SUMMARY: Hello. RISK_LEVEL: HIGH RECOMMENDATIONS:\n- Do X (Art. 5 DSG)\n- Do Y".data)).riskLevel
        = "HIGH".data ∧
    (parseResponse
        ("SUMMARY: Hello. RISK_LEVEL: HIGH RECOMMENDATIONS:\n- Do X (Art. 5 DSG)\n- Do Y".data)).recommendations
        = ["Do X (Art. 5 DSG)".data, "Do Y".data] := by
  refine ⟨by decide, by decide, by decide⟩

/-- **C8.** For every LLM reply, the recommendations list returned by
`parseResponse` is non-empty: when all three extraction tiers yield
nothing, the single placeholder entry is substituted. -/
theorem parseResponse_recommendations_ne_nil (r : List Char) :
    (parseResponse r).recommendations ≠ [] := by
  simp only [parseResponse]
  by_cases h : (recsOf r).isEmpty
  · simp [h]
  · simp only [h, if_neg, Bool.false_eq_true, ite_false]
    simpa using h

/-- **C1, counterexample.**  For the reply whose `MASSNAHMEN` section is
exactly the line `(1) Verschlüsselung der Daten: weil sensibel (Art. 8
DSG)` and which has no `EMPFEHLUNGEN` entries, the tier-2 fallback
produces nothing — the `(1)`-style parenthesised-number marker is not in
the tier-2 marker vocabulary — so `parseResponse` substitutes the
placeholder instead of the claimed `"weil sensibel (Art. 8 DSG)"`. -/
theorem tier2_paren_number_line_counterexample :
    tier1Recs
        ("GEPLANTE MASSNAHMEN ZUR SENKUNG DER BRUTTORISIKEN:\n(1) Verschlüsselung der Daten: weil sensibel (Art. 8 DSG)".data)
        = [] ∧
    massnahmenField
        ("GEPLANTE MASSNAHMEN ZUR SENKUNG DER BRUTTORISIKEN:\n(1) Verschlüsselung der Daten: weil sensibel (Art. 8 DSG)".data)
        = some ("(1) Verschlüsselung der Daten: weil sensibel (Art. 8 DSG)".data) ∧
    tier2Recs ("(1) Verschlüsselung der Daten: weil sensibel (Art. 8 DSG)".data) = [] ∧
    (parseResponse
        ("GEPLANTE MASSNAHMEN ZUR SENKUNG DER BRUTTORISIKEN:\n(1) Verschlüsselung der Daten: weil sensibel (Art. 8 DSG)".data)).recommendations
        = ["Keine Empfehlungen vorhanden.".data] := by
  refine ⟨by decide, by decide, by decide, by decide⟩

/-- **C1, amended.**  Tier 2 recognises only the markers `1.` / `1)`,
`(a)` (a parenthesised letter) and `-`/`•`/`*`; a parenthesised number
such as `(1)` is not recognised.  For a marked measure line the text
after the first colon is kept: for every reply with no tier-1
(`EMPFEHLUNGEN`) entries whose measures section is the line
`1. Verschlüsselung der Daten: weil sensibel (Art. 8 DSG)`, the parsed
recommendations are exactly `["weil sensibel (Art. 8 DSG)"]`. -/
theorem tier2_colon_split_measure_line (r : List Char)
    (h1 : tier1Recs r = [])
    (h2 : massnahmenField r
        = some ("1. Verschlüsselung der Daten: weil sensibel (Art. 8 DSG)".data)) :
    (parseResponse r).recommendations = ["weil sensibel (Art. 8 DSG)".data] := by
  have ht2 : tier2Recs ("1. Verschlüsselung der Daten: weil sensibel (Art. 8 DSG)".data)
      = ["weil sensibel (Art. 8 DSG)".data] := by decide
  simp [parseResponse, recsOf, h1, h2, ht2]

/-- Witness for `tier2_colon_split_measure_line` at a concrete reply. -/
theorem tier2_colon_split_measure_line_witness :
    tier1Recs
        ("GEPLANTE MASSNAHMEN ZUR SENKUNG DER BRUTTORISIKEN:\n1. Verschlüsselung der Daten: weil sensibel (Art. 8 DSG)".data)
        = [] ∧
    massnahmenField
        ("GEPLANTE MASSNAHMEN ZUR SENKUNG DER BRUTTORISIKEN:\n1. Verschlüsselung der Daten: weil sensibel (Art. 8 DSG)".data)
        = some ("1. Verschlüsselung der Daten: weil sensibel (Art. 8 DSG)".data) ∧
    (parseResponse
        ("GEPLANTE MASSNAHMEN ZUR SENKUNG DER BRUTTORISIKEN:\n1. Verschlüsselung der Daten: weil sensibel (Art. 8 DSG)".data)).recommendations
        = ["weil sensibel (Art. 8 DSG)".data] :=
  ⟨by decide, by decide, tier2_colon_split_measure_line _ (by decide) (by decide)⟩

/-- **C2, counterexample.**  The noise filter is not applied in every
tier: the legacy `RECOMMENDATIONS` tier keeps any non-empty line, so the
4-character extracted line `Do A` survives into the result even though,
after marker-stripping, it is 10 characters or shorter. -/
theorem short_line_kept_by_legacy_tier :
    (parseResponse ("RECOMMENDATIONS:\n- Do A".data)).recommendations = ["Do A".data] ∧
    ("Do A".data).length ≤ 10 := by
  refine ⟨by decide, by decide⟩

/-- **C2, amended.**  After marker-stripping, tier 1 (`EMPFEHLUNGEN`)
discards lines of 10 characters or fewer and bare parenthesised numbers;
tier 2 (`MASSNAHMEN` fallback) discards lines of 10 characters or fewer;
the legacy tier 3 discards only empty lines. -/
theorem extracted_line_noise_filters (r m x : List Char) :
    (x ∈ tier1Recs r → 10 < x.length ∧ isBareParenNum x = false) ∧
    (x ∈ tier2Recs m → 10 < x.length) ∧
    (x ∈ tier3Recs r → 0 < x.length) := by
  refine ⟨fun h => ?_, fun h => ?_, fun h => ?_⟩
  · unfold tier1Recs at h
    rcases hscan : empfehlungenScan r with _ | cap
    · simp [hscan] at h
    · rw [hscan] at h
      have h2 := List.mem_of_mem_take h
      simp only [List.mem_filter, Bool.and_eq_true, Bool.not_eq_true',
        decide_eq_true_eq] at h2
      exact ⟨h2.2.1, h2.2.2⟩
  · unfold tier2Recs at h
    have h2 := List.mem_of_mem_take h
    simp only [List.mem_filter, decide_eq_true_eq] at h2
    exact h2.2
  · unfold tier3Recs at h
    simp only [List.mem_filter, decide_eq_true_eq] at h
    exact h.2

/-- Witness for `extracted_line_noise_filters` at concrete extracted
lines of each tier. -/
theorem extracted_line_noise_filters_witness :
    ("Implement encryption now (Art. 8 DSG)".data ∈
        tier1Recs ("EMPFEHLUNGEN:\n1. Implement encryption now (Art. 8 DSG)\nRISK_LEVEL: LOW".data)) ∧
    (10 < ("Implement encryption now (Art. 8 DSG)".data).length ∧
      isBareParenNum ("Implement encryption now (Art. 8 DSG)".data) = false) ∧
    ("Do A".data ∈ tier3Recs ("RECOMMENDATIONS:\n- Do A".data)) ∧
    0 < ("Do A".data).length :=
  ⟨by decide,
   (extracted_line_noise_filters
      ("EMPFEHLUNGEN:\n1. Implement encryption now (Art. 8 DSG)\nRISK_LEVEL: LOW".data)
      [] ("Implement encryption now (Art. 8 DSG)".data)).1 (by decide),
   by decide,
   (extracted_line_noise_filters ("RECOMMENDATIONS:\n- Do A".data) []
      ("Do A".data)).2.2 (by decide)⟩

set_option maxRecDepth 8000 in
/-- **C10.**  The tier-1 (`EMPFEHLUNGEN`) and tier-2 (`MASSNAHMEN`)
extractions are capped at 10 entries (`.slice(0, 10)`), so whenever the
returned recommendations do not come from the legacy tier they number at
most 10; the legacy `RECOMMENDATIONS` tier has no cap, as an 11-entry
legacy reply shows. -/
theorem recommendations_cap_ten (r m : List Char) :
    (tier1Recs r).length ≤ 10 ∧
    (tier2Recs m).length ≤ 10 ∧
    ((parseResponse r).recommendations.length ≤ 10 ∨
      (parseResponse r).recommendations = tier3Recs r) ∧
    (parseResponse
        ("RECOMMENDATIONS:\n- rec number 01\n- rec number 02\n- rec number 03\n- rec number 04\n- rec number 05\n- rec number 06\n- rec number 07\n- rec number 08\n- rec number 09\n- rec number 10\n- rec number 11".data)).recommendations.length
      = 11 := by
  have htier1 : ∀ s : List Char, (tier1Recs s).length ≤ 10 := by
    intro s
    unfold tier1Recs
    rcases empfehlungenScan s with _ | cap
    · simp
    · exact List.length_take_le _ _
  have htier2 : ∀ s : List Char, (tier2Recs s).length ≤ 10 := fun s =>
    List.length_take_le _ _
  refine ⟨htier1 r, htier2 m, ?_, by decide⟩
  simp only [parseResponse]
  by_cases hempty : (recsOf r).isEmpty
  · simp [hempty]
  · simp only [hempty, Bool.false_eq_true, if_false]
    unfold recsOf
    by_cases h1 : (tier1Recs r).isEmpty
    · simp only [h1, if_true]
      rcases hm : massnahmenField r with _ | mtext
      · simp
      · simp only []
        by_cases hm2 : mtext.isEmpty
        · simp [hm2]
        · simp only [hm2, Bool.false_eq_true, if_false]
          by_cases ht2 : (tier2Recs mtext).isEmpty
          · simp [ht2]
          · simp only [ht2, Bool.false_eq_true, if_false]
            exact Or.inl (htier2 mtext)
    · simp only [h1, Bool.false_eq_true, if_false]
      exact Or.inl (htier1 r)

/-!
## Case-folding lemmas (for the risk-level vocabulary, claim C7)
-/

theorem toNat_ofNat_valid (n : Nat) (h : n.isValidChar) : (Char.ofNat n).toNat = n := by
  unfold Char.ofNat
  rw [dif_pos h]
  rfl

theorem lcaseNat_valid (n : Nat) (h : n.isValidChar) : (lcaseNat n).isValidChar := by
  unfold lcaseNat
  simp only [Nat.isValidChar] at *
  split_ifs <;> omega

theorem ucaseNat_lcaseNat (x : Nat) : ucaseNat (lcaseNat x) = ucaseNat x := by
  unfold lcaseNat ucaseNat
  split_ifs <;> omega

theorem ucase_lcase (a : Char) : ucase (lcase a) = ucase a := by
  unfold ucase lcase
  rw [toNat_ofNat_valid _ (lcaseNat_valid a.toNat a.valid), ucaseNat_lcaseNat]

/-- A case-insensitive prefix match fixes the matched characters up to
case: their upper-case form is the pattern's upper-case form. -/
theorem ciStarts_ucaseL : ∀ (p s a r : List Char), ciStarts p s = some (a, r) →
    ucaseL a = ucaseL p := by
  intro p
  induction p with
  | nil =>
    intro s a r h
    simp only [ciStarts, Option.some_inj, Prod.mk.injEq] at h
    simp [← h.1, ucaseL]
  | cons pc ps ih =>
    intro s a r h
    cases s with
    | nil =>
      exact Option.noConfusion
        (show (none : Option (List Char × List Char)) = some (a, r) from h)
    | cons c cs =>
      simp only [ciStarts] at h
      by_cases hc : lcase c = lcase pc
      · rw [if_pos hc] at h
        rcases ho : ciStarts ps cs with _ | ⟨a1, r1⟩
        · rw [ho] at h
          simp at h
        · rw [ho] at h
          simp only [Option.map_some', Option.some_inj, Prod.mk.injEq] at h
          have hih := ih cs a1 r1 ho
          have hchar : ucase c = ucase pc := by
            rw [← ucase_lcase c, hc, ucase_lcase]
          simp only [← h.1, ucaseL, List.map_cons]
          rw [show ucase c = ucase pc from hchar]
          simpa [ucaseL] using hih
      · rw [if_neg hc] at h
        exact absurd h (by simp)

/-- Everything `riskWordAt` can return upper-cases to one of the three
canonical risk symbols. -/
theorem riskWordAt_cases (s w : List Char) (h : riskWordAt s = some w) :
    ucaseL w = "LOW".data ∨ ucaseL w = "MEDIUM".data ∨ ucaseL w = "HIGH".data := by
  unfold riskWordAt at h
  have := List.exists_of_findSome?_eq_some h
  rcases this with ⟨p, hp, hf⟩
  rcases Option.map_eq_some'.mp hf with ⟨⟨a, r⟩, hci, hw⟩
  have hu := ciStarts_ucaseL p s a r hci
  simp only at hw
  subst hw
  fin_cases hp
  · exact Or.inl (by rw [hu]; decide)
  · exact Or.inr (Or.inl (by rw [hu]; decide))
  · exact Or.inr (Or.inr (by rw [hu]; decide))

/-- Everything `riskScan` can return upper-cases to one of the three
canonical risk symbols. -/
theorem riskScan_cases : ∀ (fuel : Nat) (s w : List Char), riskScan fuel s = some w →
    ucaseL w = "LOW".data ∨ ucaseL w = "MEDIUM".data ∨ ucaseL w = "HIGH".data := by
  intro fuel
  induction fuel with
  | zero => intro s w h; simp [riskScan] at h
  | succ fuel ih =>
    intro s w h
    cases s with
    | nil => simp [riskScan] at h
    | cons c cs =>
      simp only [riskScan] at h
      rcases hci : ciStarts ("risk_level:".data) (c :: cs) with _ | ⟨p1, p2⟩
      · simp only [hci] at h
        exact ih cs w h
      · simp only [hci] at h
        rcases hw : riskWordAt (p2.dropWhile isWs) with _ | w'
        · simp only [hw] at h
          exact ih cs w h
        · simp only [hw, Option.some_inj] at h
          subst h
          exact riskWordAt_cases _ w' hw

/-- **C7.**  For every LLM reply, the `riskLevel` of `parseResponse` is
one of exactly the four symbols `LOW`, `MEDIUM`, `HIGH`, `UNKNOWN`; and
when the reply has no recognisable `RISK_LEVEL` label with a recognised
value, it is `UNKNOWN` (the parser is total — no error is possible). -/
theorem riskLevel_four_symbols (r : List Char) :
    ((parseResponse r).riskLevel = "LOW".data ∨
     (parseResponse r).riskLevel = "MEDIUM".data ∨
     (parseResponse r).riskLevel = "HIGH".data ∨
     (parseResponse r).riskLevel = "UNKNOWN".data) ∧
    (riskScan r.length r = none → (parseResponse r).riskLevel = "UNKNOWN".data) := by
  constructor
  · simp only [parseResponse, riskLevelOf]
    rcases h : riskScan r.length r with _ | w
    · exact Or.inr (Or.inr (Or.inr rfl))
    · rcases riskScan_cases r.length r w h with h1 | h2 | h3
      · exact Or.inl h1
      · exact Or.inr (Or.inl h2)
      · exact Or.inr (Or.inr (Or.inl h3))
  · intro h
    simp [parseResponse, riskLevelOf, h]

/-- Witness for `riskLevel_four_symbols`: a reply with no `RISK_LEVEL`
label parses to `UNKNOWN`. -/
theorem riskLevel_four_symbols_witness :
    riskScan ("Alles unklar.".data).length ("Alles unklar.".data) = none ∧
    (parseResponse ("Alles unklar.".data)).riskLevel = "UNKNOWN".data :=
  ⟨by decide, (riskLevel_four_symbols ("Alles unklar.".data)).2 (by decide)⟩

/-!
## Dedupe lemmas (claim C5)
-/

theorem mem_of_mem_filterWithIdx (p : Nat → LegalReference → Bool) :
    ∀ (xs : List LegalReference) (i : Nat) (x : LegalReference),
      x ∈ filterWithIdx p i xs → x ∈ xs := by
  intro xs
  induction xs with
  | nil => intro i x h; simp [filterWithIdx] at h
  | cons y ys ih =>
    intro i x h
    simp only [filterWithIdx] at h
    by_cases hp : p i y
    · rw [if_pos hp] at h
      rcases List.mem_cons.mp h with h1 | h2
      · exact h1 ▸ List.mem_cons_self _ _
      · exact List.mem_cons_of_mem _ (ih (i + 1) x h2)
    · rw [if_neg hp] at h
      exact List.mem_cons_of_mem _ (ih (i + 1) x h)

theorem exists_idx_of_mem_filterWithIdx (p : Nat → LegalReference → Bool) :
    ∀ (xs : List LegalReference) (i : Nat) (x : LegalReference),
      x ∈ filterWithIdx p i xs → ∃ j, i ≤ j ∧ p j x = true := by
  intro xs
  induction xs with
  | nil => intro i x h; simp [filterWithIdx] at h
  | cons y ys ih =>
    intro i x h
    simp only [filterWithIdx] at h
    by_cases hp : p i y
    · rw [if_pos hp] at h
      rcases List.mem_cons.mp h with h1 | h2
      · exact ⟨i, Nat.le_refl i, h1 ▸ hp⟩
      · rcases ih (i + 1) x h2 with ⟨j, hj1, hj2⟩
        exact ⟨j, Nat.le_trans (Nat.le_succ i) hj1, hj2⟩
    · rw [if_neg hp] at h
      rcases ih (i + 1) x h with ⟨j, hj1, hj2⟩
      exact ⟨j, Nat.le_trans (Nat.le_succ i) hj1, hj2⟩

theorem pairwise_filterWithIdx (p : Nat → LegalReference → Bool)
    (R : LegalReference → LegalReference → Prop)
    (hR : ∀ i j x y, i < j → p i x = true → p j y = true → R x y) :
    ∀ (xs : List LegalReference) (i : Nat), (filterWithIdx p i xs).Pairwise R := by
  intro xs
  induction xs with
  | nil => intro i; simp [filterWithIdx]
  | cons y ys ih =>
    intro i
    simp only [filterWithIdx]
    by_cases hp : p i y
    · rw [if_pos hp]
      refine List.Pairwise.cons ?_ (ih (i + 1))
      intro z hz
      rcases exists_idx_of_mem_filterWithIdx p ys (i + 1) z hz with ⟨j, hj1, hj2⟩
      exact hR i j y z (Nat.lt_of_lt_of_le (Nat.lt_succ_self i) hj1) hp hj2
    · rw [if_neg hp]
      exact ih (i + 1)

theorem mem_filterWithIdx_cons (p : Nat → LegalReference → Bool)
    (y : LegalReference) (ys : List LegalReference) (i : Nat) (x : LegalReference)
    (h : x ∈ filterWithIdx p (i + 1) ys) : x ∈ filterWithIdx p i (y :: ys) := by
  simp only [filterWithIdx]
  by_cases hp : p i y
  · rw [if_pos hp]; exact List.mem_cons_of_mem _ h
  · rw [if_neg hp]; exact h

/-- The first list element satisfying the search predicate of the dedupe
(`self.findIndex(...)`) is kept by the index filter. -/
theorem find?_mem_filterWithIdx (full : List LegalReference) (q : LegalReference → Bool) :
    ∀ (xs : List LegalReference) (i : Nat) (r0 : LegalReference),
      xs.find? q = some r0 →
      full.findIdx (fun z => z.text == r0.text) = i + xs.findIdx q →
      r0 ∈ filterWithIdx (fun j y => full.findIdx (fun z => z.text == y.text) == j) i xs := by
  intro xs
  induction xs with
  | nil => intro i r0 h _; simp at h
  | cons x xs ih =>
    intro i r0 hfind hidx
    by_cases hq : q x
    · rw [List.find?_cons_of_pos _ hq] at hfind
      have hx : r0 = x := by injection hfind with h'; exact h'.symm
      subst hx
      rw [List.findIdx_cons, hq] at hidx
      simp only [cond_true, Nat.add_zero] at hidx
      simp only [filterWithIdx]
      rw [if_pos (by simp [hidx])]
      exact List.mem_cons_self _ _
    · rw [List.find?_cons_of_neg _ hq] at hfind
      rw [List.findIdx_cons] at hidx
      have hq' : q x = false := by simpa using hq
      rw [hq'] at hidx
      simp only [cond_false] at hidx
      refine mem_filterWithIdx_cons _ x xs i r0 (ih (i + 1) r0 hfind ?_)
      omega

/-- **C5.**  For every input text the extracted reference list has
pairwise distinct `text` fields; every entry comes from the pre-dedupe
reference list; and for every pre-dedupe reference the first entry
bearing its `text` — first in grammar-then-position scan order — is the
one that is kept. -/
theorem extract_dedupes_by_text (t : List Char) :
    (extractLegalReferences t).Pairwise (fun a b => a.text ≠ b.text) ∧
    (∀ x ∈ extractLegalReferences t, x ∈ citeReferences t) ∧
    (∀ r ∈ citeReferences t,
      ∃ r0, (citeReferences t).find? (fun z => z.text == r.text) = some r0 ∧
        r0 ∈ extractLegalReferences t) := by
  refine ⟨?_, ?_, ?_⟩
  · refine pairwise_filterWithIdx _ _ ?_ (citeReferences t) 0
    intro i j x y hij hx hy hxy
    rw [show (fun z : LegalReference => z.text == x.text)
          = (fun z : LegalReference => z.text == y.text) from funext (fun z => by rw [hxy])]
      at hx
    have hx' : List.findIdx (fun z => z.text == y.text) (citeReferences t) = i := by
      simpa using hx
    have hy' : List.findIdx (fun z => z.text == y.text) (citeReferences t) = j := by
      simpa using hy
    omega
  · intro x hx
    exact mem_of_mem_filterWithIdx _ (citeReferences t) 0 x hx
  · intro r hr
    have hsome : ((citeReferences t).find? (fun z => z.text == r.text)).isSome := by
      rw [List.find?_isSome]
      exact ⟨r, hr, by simp⟩
    rcases Option.isSome_iff_exists.mp hsome with ⟨r0, hr0⟩
    refine ⟨r0, hr0, ?_⟩
    have htext : r0.text = r.text := by
      have := List.find?_some hr0
      simpa using this
    refine find?_mem_filterWithIdx (citeReferences t) _ (citeReferences t) 0 r0 hr0 ?_
    rw [show (fun z : LegalReference => z.text == r0.text)
          = (fun z : LegalReference => z.text == r.text) from funext (fun z => by rw [htext])]
    omega

/-- Witness for `extract_dedupes_by_text`: a text containing the same
citation substring twice keeps exactly the first occurrence. -/
theorem extract_dedupes_by_text_witness :
    (⟨"DSG".data, "5".data, none, "Art. 5 DSG".data,
        "https://www.fedlex.admin.ch/eli/cc/2022/491/de#art_5".data⟩ : LegalReference)
        ∈ citeReferences ("Art. 5 DSG und nochmals Art. 5 DSG".data) ∧
    (∃ r0,
      (citeReferences ("Art. 5 DSG und nochmals Art. 5 DSG".data)).find?
          (fun z => z.text == ("Art. 5 DSG".data)) = some r0 ∧
      r0 ∈ extractLegalReferences ("Art. 5 DSG und nochmals Art. 5 DSG".data)) :=
  ⟨by decide,
   (extract_dedupes_by_text ("Art. 5 DSG und nochmals Art. 5 DSG".data)).2.2
     ⟨"DSG".data, "5".data, none, "Art. 5 DSG".data,
      "https://www.fedlex.admin.ch/eli/cc/2022/491/de#art_5".data⟩ (by decide)⟩

/-!
## Context-retrieval lemmas (claim C4)
-/

/-- The retrieval algorithm as the specification words it: the score of
an article is "the count of **distinct** query tokens present in the
article's token set"; the rest of the pipeline (filter to positive
score, stable descending sort, first `limit`) is unchanged.  Stated for
comparison with `retrieveDsgContext`, which is translated from the
source. -/
def retrieveContextSpecDistinct (articles : List DsgArticle) (query : List Char)
    (limit : Nat) : List DsgArticle :=
  if articles.isEmpty then []
  else
    let queryTokens := tokenize query
    if queryTokens.isEmpty then []
    else
      let scores := articles.map (fun article =>
        (article, (queryTokens.dedup.filter (fun tok => (tokenize article.text).contains tok)).length))
      (((sortByScoreDesc (scores.filter (fun s => 0 < s.2))).take limit).map (fun s => s.1))

/-- **C4, counterexample.**  The source does not deduplicate the query
tokens: for the query `world world hello` over articles `A` (body
`hello`, listed first) and `B` (body `world`), the code scores `B` twice
for its duplicated token and returns `[B, A]`, while distinct-token
scoring ties both at 1 and stable order returns `[A, B]`. -/
theorem retrieve_distinct_scoring_counterexample :
    retrieveDsgContext
        [⟨"A".data, [], "hello".data⟩, ⟨"B".data, [], "world".data⟩]
        ("world world hello".data) 5
      = [⟨"B".data, [], "world".data⟩, ⟨"A".data, [], "hello".data⟩] ∧
    retrieveContextSpecDistinct
        [⟨"A".data, [], "hello".data⟩, ⟨"B".data, [], "world".data⟩]
        ("world world hello".data) 5
      = [⟨"A".data, [], "hello".data⟩, ⟨"B".data, [], "world".data⟩] ∧
    retrieveDsgContext
        [⟨"A".data, [], "hello".data⟩, ⟨"B".data, [], "world".data⟩]
        ("world world hello".data) 5
      ≠ retrieveContextSpecDistinct
        [⟨"A".data, [], "hello".data⟩, ⟨"B".data, [], "world".data⟩]
        ("world world hello".data) 5 :=
  ⟨by decide, by decide, by decide⟩

theorem articleScore_count (qt : List (List Char)) (a : DsgArticle) :
    articleScore qt a = (qt.filter (fun tok => (tokenize a.text).contains tok)).length := by
  unfold articleScore
  suffices h : ∀ (l : List (List Char)) (acc : Nat),
      l.foldl (fun overlap token =>
        if (tokenize a.text).contains token then overlap + 1 else overlap) acc
        = acc + (l.filter (fun tok => (tokenize a.text).contains tok)).length by
    simpa using h qt 0
  intro l
  induction l with
  | nil => intro acc; simp
  | cons x xs ih =>
    intro acc
    simp only [List.foldl_cons, List.filter_cons]
    by_cases hx : (tokenize a.text).contains x
    · simp only [hx, if_true, ih, List.length_cons]
      omega
    · have hx' : ((tokenize a.text).contains x) = false := by simpa using hx
      simp only [hx', Bool.false_eq_true, if_false, ih]

theorem insertDesc_perm (x : DsgArticle × Nat) (l : List (DsgArticle × Nat)) :
    (insertDesc x l).Perm (x :: l) := by
  induction l with
  | nil => simp [insertDesc]
  | cons y ys ih =>
    simp only [insertDesc]
    by_cases h : y.2 < x.2
    · rw [if_pos h]
    · rw [if_neg h]
      exact (ih.cons y).trans (List.Perm.swap x y ys)

theorem sortByScoreDesc_perm (l : List (DsgArticle × Nat)) :
    (sortByScoreDesc l).Perm l := by
  unfold sortByScoreDesc
  suffices h : ∀ (l acc : List (DsgArticle × Nat)),
      (l.foldl (fun acc x => insertDesc x acc) acc).Perm (acc ++ l) by
    simpa using h l []
  intro l
  induction l with
  | nil => intro acc; simp
  | cons x xs ih =>
    intro acc
    simp only [List.foldl_cons]
    refine (ih (insertDesc x acc)).trans ?_
    refine (List.Perm.append_right xs ((insertDesc_perm x acc))).trans ?_
    exact List.perm_middle.symm

theorem insertDesc_pairwise (x : DsgArticle × Nat) (l : List (DsgArticle × Nat))
    (hl : l.Pairwise (fun p q => q.2 ≤ p.2)) :
    (insertDesc x l).Pairwise (fun p q => q.2 ≤ p.2) := by
  induction l with
  | nil => simp [insertDesc]
  | cons y ys ih =>
    rcases List.pairwise_cons.mp hl with ⟨hy, hys⟩
    simp only [insertDesc]
    by_cases h : y.2 < x.2
    · rw [if_pos h]
      refine List.pairwise_cons.mpr ⟨?_, hl⟩
      intro z hz
      rcases List.mem_cons.mp hz with h1 | h2
      · subst h1; omega
      · have := hy z h2; omega
    · rw [if_neg h]
      refine List.pairwise_cons.mpr ⟨?_, ih hys⟩
      intro z hz
      rcases List.mem_cons.mp ((insertDesc_perm x ys).mem_iff.mp hz) with h1 | h2
      · subst h1; omega
      · exact hy z h2

theorem sortByScoreDesc_pairwise (l : List (DsgArticle × Nat)) :
    (sortByScoreDesc l).Pairwise (fun p q => q.2 ≤ p.2) := by
  unfold sortByScoreDesc
  suffices h : ∀ (l acc : List (DsgArticle × Nat)),
      acc.Pairwise (fun p q => q.2 ≤ p.2) →
      (l.foldl (fun acc x => insertDesc x acc) acc).Pairwise (fun p q => q.2 ≤ p.2) by
    exact h l [] (by simp)
  intro l
  induction l with
  | nil => intro acc hacc; simpa using hacc
  | cons x xs ih =>
    intro acc hacc
    simp only [List.foldl_cons]
    exact ih (insertDesc x acc) (insertDesc_pairwise x acc hacc)

/-- Every pair reaching the sorted stage of `retrieveDsgContext` comes
from the scored `map`, so its second component is its article's score. -/
theorem mem_sorted_scores (articles : List DsgArticle) (qt : List (List Char))
    (p : DsgArticle × Nat)
    (hp : p ∈ sortByScoreDesc
        ((articles.map (fun article => (article, articleScore qt article))).filter
          (fun s => 0 < s.2))) :
    p.1 ∈ articles ∧ p.2 = articleScore qt p.1 ∧ 0 < p.2 := by
  have h1 := (sortByScoreDesc_perm _).mem_iff.mp hp
  have h2 := List.mem_filter.mp h1
  rcases List.mem_map.mp h2.1 with ⟨a, ha, hfa⟩
  refine ⟨?_, ?_, by simpa using h2.2⟩
  · rw [← hfa]; exact ha
  · rw [← hfa]

/-- **C4, amended.**  `retrieveDsgContext` scores each article by the
number of query-token **occurrences** (duplicates in the query counted
each time, not distinct tokens) found in the article's token list,
keeps only positively scored articles of the collection, orders them by
descending score — stably, so ties keep collection order — and returns
at most `limit` of them; on the claim's two-token instance (article A
sharing both tokens, B one) the result is `[A, B]`, and on a tied
one-token instance the collection order is kept. -/
theorem retrieve_occurrence_ranked (articles : List DsgArticle) (query : List Char)
    (limit : Nat) :
    (∀ a : DsgArticle,
        articleScore (tokenize query) a
          = ((tokenize query).filter (fun tok => (tokenize a.text).contains tok)).length) ∧
    (retrieveDsgContext articles query limit).Pairwise
      (fun a b => articleScore (tokenize query) b ≤ articleScore (tokenize query) a) ∧
    (∀ a ∈ retrieveDsgContext articles query limit,
        a ∈ articles ∧ 0 < articleScore (tokenize query) a) ∧
    (retrieveDsgContext articles query limit).length ≤ limit ∧
    retrieveDsgContext
        [⟨"B".data, [], "verschlüsselung allgemein".data⟩,
         ⟨"A".data, [], "verschlüsselung der personendaten".data⟩]
        ("Verschlüsselung personendaten".data) 2
      = [⟨"A".data, [], "verschlüsselung der personendaten".data⟩,
         ⟨"B".data, [], "verschlüsselung allgemein".data⟩] ∧
    retrieveDsgContext
        [⟨"A2".data, [], "daten hier".data⟩, ⟨"B2".data, [], "daten dort".data⟩]
        ("daten".data) 5
      = [⟨"A2".data, [], "daten hier".data⟩, ⟨"B2".data, [], "daten dort".data⟩] := by
  refine ⟨fun a => articleScore_count _ a, ?_, ?_, ?_, by decide, by decide⟩
  · unfold retrieveDsgContext
    by_cases h1 : articles.isEmpty
    · simp [h1]
    · rw [if_neg h1]
      by_cases h2 : (tokenize query).isEmpty
      · simp [h2]
      · rw [if_neg h2]
        rw [List.pairwise_map]
        refine List.Pairwise.imp_of_mem ?_
          (List.Pairwise.sublist (List.take_sublist _ _) (sortByScoreDesc_pairwise _))
        intro p q hp hq hle
        have hp' := mem_sorted_scores articles (tokenize query) p (List.mem_of_mem_take hp)
        have hq' := mem_sorted_scores articles (tokenize query) q (List.mem_of_mem_take hq)
        rw [← hp'.2.1, ← hq'.2.1]
        exact hle
  · intro a ha
    unfold retrieveDsgContext at ha
    by_cases h1 : articles.isEmpty
    · simp [h1] at ha
    · rw [if_neg h1] at ha
      by_cases h2 : (tokenize query).isEmpty
      · simp [h2] at ha
      · rw [if_neg h2] at ha
        rcases List.mem_map.mp ha with ⟨p, hp, hpa⟩
        have h3 := mem_sorted_scores articles (tokenize query) p (List.mem_of_mem_take hp)
        refine ⟨hpa ▸ h3.1, ?_⟩
        rw [← hpa, ← h3.2.1]
        exact h3.2.2
  · unfold retrieveDsgContext
    by_cases h1 : articles.isEmpty
    · simp [h1]
    · rw [if_neg h1]
      by_cases h2 : (tokenize query).isEmpty
      · simp [h2]
      · rw [if_neg h2]
        rw [List.length_map]
        exact List.length_take_le _ _

/-- Witness for `retrieve_occurrence_ranked` at a concrete retrieval. -/
theorem retrieve_occurrence_ranked_witness :
    (⟨"A".data, [], "verschlüsselung der personendaten".data⟩ : DsgArticle)
        ∈ retrieveDsgContext
          [⟨"B".data, [], "verschlüsselung allgemein".data⟩,
           ⟨"A".data, [], "verschlüsselung der personendaten".data⟩]
          ("Verschlüsselung personendaten".data) 2 ∧
    (⟨"A".data, [], "verschlüsselung der personendaten".data⟩ : DsgArticle)
        ∈ [⟨"B".data, [], "verschlüsselung allgemein".data⟩,
           ⟨"A".data, [], "verschlüsselung der personendaten".data⟩] ∧
    0 < articleScore (tokenize ("Verschlüsselung personendaten".data))
        ⟨"A".data, [], "verschlüsselung der personendaten".data⟩ :=
  ⟨by decide,
   ((retrieve_occurrence_ranked
      [⟨"B".data, [], "verschlüsselung allgemein".data⟩,
       ⟨"A".data, [], "verschlüsselung der personendaten".data⟩]
      ("Verschlüsselung personendaten".data) 2).2.2.1
      ⟨"A".data, [], "verschlüsselung der personendaten".data⟩ (by decide)).1,
   ((retrieve_occurrence_ranked
      [⟨"B".data, [], "verschlüsselung allgemein".data⟩,
       ⟨"A".data, [], "verschlüsselung der personendaten".data⟩]
      ("Verschlüsselung personendaten".data) 2).2.2.1
      ⟨"A".data, [], "verschlüsselung der personendaten".data⟩ (by decide)).2⟩

/-!
## Citation well-formedness and inversion (claim C6)
-/

/-- The invariant every match of the pattern of grammar `g` satisfies:
lengths and character classes of the consumed pieces, and the law token
being a case variant of one of the grammar's two alternatives. -/
def CiteWF (g : Grammar) (c : Cite) : Prop :=
  c.artTok.length = 4 ∧
  (∀ x ∈ c.ws1, isWs x = true) ∧
  c.digits ≠ [] ∧
  (∀ x ∈ c.digits, x.isDigit = true) ∧
  (∀ l, c.letterOpt = some l → l.isAlpha = true) ∧
  (∀ x ∈ c.ws2, isWs x = true) ∧
  (∀ a, c.absPart = some a → a.absTok.length = 4) ∧
  (lcaseL c.lawTok = lcaseL g.abbr ∨ lcaseL c.lawTok = lcaseL g.full)

theorem ciStarts_length : ∀ (p s a r : List Char), ciStarts p s = some (a, r) →
    a.length = p.length := by
  intro p
  induction p with
  | nil =>
    intro s a r h
    simp only [ciStarts, Option.some_inj, Prod.mk.injEq] at h
    simp [← h.1]
  | cons pc ps ih =>
    intro s a r h
    cases s with
    | nil =>
      exact Option.noConfusion
        (show (none : Option (List Char × List Char)) = some (a, r) from h)
    | cons c cs =>
      simp only [ciStarts] at h
      by_cases hc : lcase c = lcase pc
      · rw [if_pos hc] at h
        rcases ho : ciStarts ps cs with _ | ⟨a1, r1⟩
        · rw [ho] at h; simp at h
        · rw [ho] at h
          simp only [Option.map_some', Option.some_inj, Prod.mk.injEq] at h
          have := ih cs a1 r1 ho
          simp [← h.1, this]
      · rw [if_neg hc] at h
        exact absurd h (by simp)

theorem ciStarts_lcaseL : ∀ (p s a r : List Char), ciStarts p s = some (a, r) →
    lcaseL a = lcaseL p := by
  intro p
  induction p with
  | nil =>
    intro s a r h
    simp only [ciStarts, Option.some_inj, Prod.mk.injEq] at h
    simp [← h.1, lcaseL]
  | cons pc ps ih =>
    intro s a r h
    cases s with
    | nil =>
      exact Option.noConfusion
        (show (none : Option (List Char × List Char)) = some (a, r) from h)
    | cons c cs =>
      simp only [ciStarts] at h
      by_cases hc : lcase c = lcase pc
      · rw [if_pos hc] at h
        rcases ho : ciStarts ps cs with _ | ⟨a1, r1⟩
        · rw [ho] at h; simp at h
        · rw [ho] at h
          simp only [Option.map_some', Option.some_inj, Prod.mk.injEq] at h
          have hih := ih cs a1 r1 ho
          simp only [← h.1, lcaseL, List.map_cons, hc]
          simpa [lcaseL] using hih
      · rw [if_neg hc] at h
        exact absurd h (by simp)

theorem matchLaw_lcaseL (g : Grammar) (s law rest : List Char)
    (h : matchLaw g s = some (law, rest)) :
    lcaseL law = lcaseL g.abbr ∨ lcaseL law = lcaseL g.full := by
  unfold matchLaw at h
  rcases h1 : ciStarts g.abbr s with _ | ⟨a1, r1⟩
  · rw [h1] at h
    exact Or.inr (ciStarts_lcaseL _ _ _ _ h)
  · rw [h1] at h
    simp only [Option.some_inj, Prod.mk.injEq] at h
    exact Or.inl (h.1 ▸ ciStarts_lcaseL _ _ _ _ h1)

theorem matchCiteTail_wf (g : Grammar) (artTok ws1 digits : List Char)
    (letterOpt : Option Char) (s : List Char) (c : Cite) (rest : List Char)
    (hart : artTok.length = 4) (hws1 : ∀ x ∈ ws1, isWs x = true)
    (hd1 : digits ≠ []) (hd2 : ∀ x ∈ digits, x.isDigit = true)
    (hlo : ∀ l, letterOpt = some l → l.isAlpha = true)
    (h : matchCiteTail artTok ws1 digits letterOpt g s = some (c, rest)) :
    CiteWF g c := by
  unfold matchCiteTail at h
  rcases habs : ciStarts ("Abs.".data) (s.dropWhile isWs) with _ | ⟨absTok, s3⟩
  · simp only [habs] at h
    rcases hlaw : matchLaw g (s.dropWhile isWs) with _ | ⟨law, rest'⟩
    · simp only [hlaw] at h
      exact Option.noConfusion h
    · simp only [hlaw, Option.some_inj, Prod.mk.injEq] at h
      rw [← h.1]
      refine ⟨hart, hws1, hd1, hd2, hlo, ?_, ?_, ?_⟩
      · intro x hx
        exact List.mem_takeWhile_imp hx
      · intro a ha
        simp at ha
      · exact matchLaw_lcaseL g _ law rest' hlaw
  · simp only [habs] at h
    by_cases hpds : ((s3.dropWhile isWs).takeWhile Char.isDigit).isEmpty
    · simp only [hpds, if_true] at h
      rcases hlaw : matchLaw g (s.dropWhile isWs) with _ | ⟨law, rest'⟩
      · simp only [hlaw] at h
        exact Option.noConfusion h
      · simp only [hlaw, Option.some_inj, Prod.mk.injEq] at h
        rw [← h.1]
        refine ⟨hart, hws1, hd1, hd2, hlo, ?_, ?_, ?_⟩
        · intro x hx
          exact List.mem_takeWhile_imp hx
        · intro a ha
          simp at ha
        · exact matchLaw_lcaseL g _ law rest' hlaw
    · simp only [hpds, Bool.false_eq_true, if_false] at h
      rcases hlaw2 : matchLaw g
          (((s3.dropWhile isWs).dropWhile Char.isDigit).dropWhile isWs) with _ | ⟨law, rest'⟩
      · simp only [hlaw2] at h
        rcases hlaw : matchLaw g (s.dropWhile isWs) with _ | ⟨law1, rest1⟩
        · simp only [hlaw] at h
          exact Option.noConfusion h
        · simp only [hlaw, Option.some_inj, Prod.mk.injEq] at h
          rw [← h.1]
          refine ⟨hart, hws1, hd1, hd2, hlo, ?_, ?_, ?_⟩
          · intro x hx
            exact List.mem_takeWhile_imp hx
          · intro a ha
            simp at ha
          · exact matchLaw_lcaseL g _ law1 rest1 hlaw
      · simp only [hlaw2, Option.some_inj, Prod.mk.injEq] at h
        rw [← h.1]
        refine ⟨hart, hws1, hd1, hd2, hlo, ?_, ?_, ?_⟩
        · intro x hx
          exact List.mem_takeWhile_imp hx
        · intro a ha
          simp only [Option.some_inj] at ha
          rw [← ha]
          exact ciStarts_length _ _ _ _ habs
        · exact matchLaw_lcaseL g _ law rest' hlaw2

theorem matchCiteAt_wf (g : Grammar) (s : List Char) (c : Cite) (rest : List Char)
    (h : matchCiteAt g s = some (c, rest)) : CiteWF g c := by
  unfold matchCiteAt at h
  rcases hart : ciStarts ("Art.".data) s with _ | ⟨artTok, s1⟩
  · simp only [hart] at h
    exact Option.noConfusion h
  · simp only [hart] at h
    have hartlen : artTok.length = 4 := ciStarts_length _ _ _ _ hart
    by_cases hds : ((s1.dropWhile isWs).takeWhile Char.isDigit).isEmpty
    · simp only [hds, if_true] at h
      exact Option.noConfusion h
    · simp only [hds, Bool.false_eq_true, if_false] at h
      have hd1 : (s1.dropWhile isWs).takeWhile Char.isDigit ≠ [] := by
        simpa using hds
      have hd2 : ∀ x ∈ (s1.dropWhile isWs).takeWhile Char.isDigit, x.isDigit = true :=
        fun x hx => List.mem_takeWhile_imp hx
      have hws1 : ∀ x ∈ s1.takeWhile isWs, isWs x = true :=
        fun x hx => List.mem_takeWhile_imp hx
      rcases hs2 : (s1.dropWhile isWs).dropWhile Char.isDigit with _ | ⟨c2, rest2⟩
      · simp only [hs2] at h
        exact matchCiteTail_wf g _ _ _ _ _ c rest hartlen hws1 hd1 hd2
          (fun l hl => by simp at hl) h
      · simp only [hs2] at h
        by_cases hc2 : c2.isAlpha
        · rw [if_pos hc2] at h
          rcases htry : matchCiteTail artTok (s1.takeWhile isWs)
              ((s1.dropWhile isWs).takeWhile Char.isDigit) (some c2) g rest2
              with _ | ⟨c3, rest3⟩
          · simp only [htry] at h
            exact matchCiteTail_wf g _ _ _ _ _ c rest hartlen hws1 hd1 hd2
              (fun l hl => by simp at hl) h
          · simp only [htry, Option.some_inj, Prod.mk.injEq] at h
            have := matchCiteTail_wf g _ _ _ _ _ c3 rest3 hartlen hws1 hd1 hd2
              (fun l hl => by
                simp only [Option.some_inj] at hl
                rw [← hl]
                exact hc2) htry
            exact h.1 ▸ this
        · rw [if_neg hc2] at h
          exact matchCiteTail_wf g _ _ _ _ _ c rest hartlen hws1 hd1 hd2
            (fun l hl => by simp at hl) h

theorem scanCites_wf (g : Grammar) : ∀ (fuel : Nat) (s : List Char) (c : Cite),
    c ∈ scanCites g fuel s → CiteWF g c := by
  intro fuel
  induction fuel with
  | zero => intro s c h; simp [scanCites] at h
  | succ fuel ih =>
    intro s c h
    cases s with
    | nil => simp [scanCites] at h
    | cons x xs =>
      simp only [scanCites] at h
      rcases hm : matchCiteAt g (x :: xs) with _ | ⟨c1, rest⟩
      · simp only [hm] at h
        exact ih xs c h
      · simp only [hm, List.mem_cons] at h
        rcases h with h1 | h2
        · exact h1 ▸ matchCiteAt_wf g (x :: xs) c1 rest hm
        · exact ih rest c h2

theorem allMatches_wf (t : List Char) (c : Cite) (h : c ∈ allMatches t) :
    ∃ g ∈ grammars, CiteWF g c := by
  unfold allMatches at h
  rcases List.mem_flatten.mp h with ⟨l, hl, hc⟩
  rcases List.mem_map.mp hl with ⟨g, hg, hgl⟩
  exact ⟨g, hg, scanCites_wf g t.length t c (hgl ▸ hc)⟩

/-- Parse-back uniqueness: a well-formed pattern match whose full
matched substring is `Art. 5 DSG` must have matched exactly the pieces
`Art.` + ` ` + `5` + ` ` + `DSG`, with no letter suffix and no
`Abs.` group. -/
theorem cite_text_inversion (g : Grammar) (hg : g ∈ grammars) (c : Cite)
    (hwf : CiteWF g c) (htext : c.text = "Art. 5 DSG".data) :
    c = ⟨"Art.".data, [' '], ['5'], none, [' '], none, "DSG".data⟩ := by
  obtain ⟨artTok, ws1, digits, letterOpt, ws2, absPart, lawTok⟩ := c
  obtain ⟨hartlen, hws1, hd1, hd2, hlo, hws2, habs, hlaw⟩ := hwf
  dsimp only at hartlen hws1 hd1 hd2 hlo hws2 habs hlaw
  simp only [Cite.text, List.append_assoc] at htext
  rw [show (['A', 'r', 't', '.', ' ', '5', ' ', 'D', 'S', 'G'] : List Char)
        = "Art.".data ++ " 5 DSG".data from by decide] at htext
  obtain ⟨hart, htext2⟩ := List.append_inj htext (by simpa using hartlen)
  clear htext
  rcases ws1 with _ | ⟨w, ws1'⟩
  · -- an empty whitespace run would put the digit run at ' '
    rcases digits with _ | ⟨d, ds⟩
    · exact absurd rfl hd1
    · simp only [List.nil_append, List.cons_append, List.cons.injEq] at htext2
      have hdig := hd2 d (List.mem_cons_self _ _)
      rw [htext2.1] at hdig
      exact absurd hdig (by decide)
  · simp only [List.cons_append, List.cons.injEq] at htext2
    obtain ⟨hw, htext3⟩ := htext2
    rcases ws1' with _ | ⟨w2, ws1''⟩
    · -- ws1 = [' ']; now the digit run on "5 DSG"
      rcases digits with _ | ⟨d, ds⟩
      · exact absurd rfl hd1
      · simp only [List.nil_append, List.cons_append, List.cons.injEq] at htext3
        obtain ⟨hd, htext4⟩ := htext3
        rcases ds with _ | ⟨d2, ds'⟩
        · -- digits = ['5']
          simp only [List.nil_append] at htext4
          rcases letterOpt with _ | l
          · simp only [Option.toList_none, List.nil_append] at htext4
            rcases ws2 with _ | ⟨v, ws2'⟩
            · -- empty ws2: the law token (or Abs-group) would start at ' '
              simp only [List.nil_append] at htext4
              rcases habsPart : absPart with _ | a
              · rw [habsPart] at htext4
                simp only [Option.elim_none, List.nil_append] at htext4
                rw [htext4] at hlaw
                fin_cases hg <;> exact absurd hlaw (by decide)
              · rw [habsPart] at htext4
                simp only [Option.elim_some] at htext4
                have hlen := congrArg List.length htext4
                have h4 := habs a habsPart
                simp only [AbsPart.flat, List.length_append, List.length_cons,
                  List.length_nil] at hlen
                have hlawnil : lawTok = [] := List.length_eq_zero.mp (by omega)
                rw [hlawnil] at hlaw
                fin_cases hg <;> exact absurd hlaw (by decide)
            · simp only [List.cons_append, List.cons.injEq] at htext4
              obtain ⟨hv, htext5⟩ := htext4
              rcases ws2' with _ | ⟨v2, ws2''⟩
              · -- ws2 = [' ']
                simp only [List.nil_append] at htext5
                rcases habsPart : absPart with _ | a
                · rw [habsPart] at htext5
                  simp only [Option.elim_none, List.nil_append] at htext5
                  subst hart hw hd hv htext5 habsPart
                  rfl
                · rw [habsPart] at htext5
                  simp only [Option.elim_some] at htext5
                  have hlen := congrArg List.length htext5
                  have h4 := habs a habsPart
                  simp only [AbsPart.flat, List.length_append, List.length_cons,
                    List.length_nil] at hlen
                  omega
              · simp only [List.cons_append, List.cons.injEq] at htext5
                have hconf := hws2 v2 (by simp)
                rw [htext5.1] at hconf
                exact absurd hconf (by decide)
          · -- a letter suffix would have to be ' '
            simp only [Option.toList_some, List.cons_append, List.cons.injEq] at htext4
            have hconf := hlo l rfl
            rw [htext4.1] at hconf
            exact absurd hconf (by decide)
        · -- a second digit would have to be ' '
          simp only [List.cons_append, List.cons.injEq] at htext4
          have hconf := hd2 d2 (by simp)
          rw [htext4.1] at hconf
          exact absurd hconf (by decide)
    · -- a second whitespace character would have to be '5'
      simp only [List.cons_append, List.cons.injEq] at htext3
      have hconf := hws1 w2 (by simp)
      rw [htext3.1] at hconf
      exact absurd hconf (by decide)

/-- **C6.**  For every text with no citation-pattern match,
`extractLegalReferences` returns the empty list; and for every text
whose only citation-pattern match reads exactly `Art. 5 DSG`, it
returns exactly one reference, with `law` `"DSG"`, `article` `"5"`, and
the registry URL ending in `#art_5`. -/
theorem extract_art5dsg_and_empty (t : List Char) :
    (allMatches t = [] → extractLegalReferences t = []) ∧
    (∀ c : Cite, allMatches t = [c] → c.text = "Art. 5 DSG".data →
      extractLegalReferences t
        = [⟨"DSG".data, "5".data, none, "Art. 5 DSG".data,
            "https://www.fedlex.admin.ch/eli/cc/2022/491/de#art_5".data⟩]) := by
  constructor
  · intro h
    simp only [extractLegalReferences, citeReferences, h, List.filterMap_nil]
    rfl
  · intro c h htext
    have hc : c ∈ allMatches t := by rw [h]; exact List.mem_cons_self _ _
    rcases allMatches_wf t c hc with ⟨g, hg, hwf⟩
    have hcc := cite_text_inversion g hg c hwf htext
    subst hcc
    simp only [extractLegalReferences, citeReferences, h]
    decide

/-- Witness for `extract_art5dsg_and_empty` at concrete texts. -/
theorem extract_art5dsg_and_empty_witness :
    allMatches ("kein Zitat hier".data) = [] ∧
    extractLegalReferences ("kein Zitat hier".data) = [] ∧
    allMatches ("Nach Art. 5 DSG gilt dies.".data)
      = [⟨"Art.".data, [' '], ['5'], none, [' '], none, "DSG".data⟩] ∧
    extractLegalReferences ("Nach Art. 5 DSG gilt dies.".data)
      = [⟨"DSG".data, "5".data, none, "Art. 5 DSG".data,
          "https://www.fedlex.admin.ch/eli/cc/2022/491/de#art_5".data⟩] :=
  ⟨by decide,
   (extract_art5dsg_and_empty ("kein Zitat hier".data)).1 (by decide),
   by decide,
   (extract_art5dsg_and_empty ("Nach Art. 5 DSG gilt dies.".data)).2
     ⟨"Art.".data, [' '], ['5'], none, [' '], none, "DSG".data⟩ (by decide) (by decide)⟩

/-!
## Markdown-free fixpoint lemmas (claim C9)
-/

/-- No run of three or more newlines occurs in `s` (the complement of
the `\n{3,}` pattern's domain). -/
def noTripleNl : List Char → Bool
  | c1 :: c2 :: c3 :: rest =>
    !(c1 = '\n' && c2 = '\n' && c3 = '\n') && noTripleNl (c2 :: c3 :: rest)
  | _ => true

theorem matchBoldAt_none (s : List Char) (h : '*' ∉ s) : matchBoldAt s = none := by
  match s with
  | [] => rfl
  | [c] => rfl
  | c1 :: c2 :: rest =>
    have h1 : ¬(c1 = '*') := fun hc => h (hc ▸ List.mem_cons_self _ _)
    simp [matchBoldAt, h1]

theorem stripBold_id : ∀ (fuel : Nat) (s : List Char), '*' ∉ s →
    stripBold fuel s = s := by
  intro fuel
  induction fuel with
  | zero => intro s _; cases s <;> rfl
  | succ fuel ih =>
    intro s h
    cases s with
    | nil => rfl
    | cons c cs =>
      simp only [stripBold, matchBoldAt_none _ h]
      rw [ih cs (fun hc => h (List.mem_cons_of_mem _ hc))]

theorem matchDelimAt_none (d : Char) (s : List Char) (h : d ∉ s) :
    matchDelimAt d s = none := by
  match s with
  | [] => rfl
  | c :: rest =>
    have h1 : ¬(c = d) := fun hc => h (hc ▸ List.mem_cons_self _ _)
    simp [matchDelimAt, h1]

theorem stripDelim_id (d : Char) : ∀ (fuel : Nat) (s : List Char), d ∉ s →
    stripDelim d fuel s = s := by
  intro fuel
  induction fuel with
  | zero => intro s _; cases s <;> rfl
  | succ fuel ih =>
    intro s h
    cases s with
    | nil => rfl
    | cons c cs =>
      simp only [stripDelim, matchDelimAt_none d _ h]
      rw [ih cs (fun hc => h (List.mem_cons_of_mem _ hc))]

theorem isFenceHead_false (s : List Char) (h : btick ∉ s) : isFenceHead s = false := by
  match s with
  | [] => rfl
  | [c] => rfl
  | [c1, c2] => rfl
  | c1 :: c2 :: c3 :: rest =>
    have h1 : ¬(c1 = btick) := fun hc => h (hc ▸ List.mem_cons_self _ _)
    simp [isFenceHead, h1]

theorem matchFenceAt_none (s : List Char) (h : btick ∉ s) : matchFenceAt s = none := by
  unfold matchFenceAt
  rw [isFenceHead_false s h]
  simp

theorem stripFence_id : ∀ (fuel : Nat) (s : List Char), btick ∉ s →
    stripFence fuel s = s := by
  intro fuel
  induction fuel with
  | zero => intro s _; cases s <;> rfl
  | succ fuel ih =>
    intro s h
    cases s with
    | nil => rfl
    | cons c cs =>
      simp only [stripFence, matchFenceAt_none _ h]
      rw [ih cs (fun hc => h (List.mem_cons_of_mem _ hc))]

theorem matchHeaderAt_none (s : List Char) (h : '#' ∉ s) : matchHeaderAt s = none := by
  unfold matchHeaderAt
  cases s with
  | nil => rfl
  | cons c cs =>
    have h1 : ¬(c = '#') := fun hc => h (hc ▸ List.mem_cons_self _ _)
    simp [List.takeWhile_cons, h1]

theorem stripHeaders_id : ∀ (fuel : Nat) (b : Bool) (s : List Char), '#' ∉ s →
    stripHeaders b fuel s = s := by
  intro fuel
  induction fuel with
  | zero => intro b s _; cases s <;> rfl
  | succ fuel ih =>
    intro b s h
    cases s with
    | nil => rfl
    | cons c cs =>
      have htail : '#' ∉ cs := fun hc => h (List.mem_cons_of_mem _ hc)
      cases b with
      | false =>
        simp only [stripHeaders]
        rw [ih (c = '\n') cs htail]
        simp
      | true =>
        simp only [stripHeaders, matchHeaderAt_none _ h]
        rw [ih (c = '\n') cs htail]
        simp

theorem noTripleNl_tail (c : Char) (cs : List Char) (h : noTripleNl (c :: cs) = true) :
    noTripleNl cs = true := by
  match cs with
  | [] => rfl
  | [x] => rfl
  | x :: y :: rest =>
    simp only [noTripleNl, Bool.and_eq_true] at h
    exact h.2

theorem collapseNl_id : ∀ (fuel : Nat) (s : List Char), noTripleNl s = true →
    collapseNl fuel s = s := by
  intro fuel
  induction fuel with
  | zero => intro s _; cases s <;> rfl
  | succ fuel ih =>
    intro s h
    cases s with
    | nil => rfl
    | cons c cs =>
      simp only [collapseNl]
      have hcond : ¬(c = '\n' && 2 ≤ (cs.takeWhile (fun x => x = '\n')).length) := by
        intro hcon
        simp only [Bool.and_eq_true, decide_eq_true_eq] at hcon
        obtain ⟨hc, hlen⟩ := hcon
        match cs, hlen with
        | c2 :: cs2, hlen =>
          by_cases hc2 : c2 = '\n'
          · rw [List.takeWhile_cons, if_pos (by simpa using hc2)] at hlen
            simp only [List.length_cons] at hlen
            match cs2, hlen with
            | c3 :: cs3, hlen =>
              by_cases hc3 : c3 = '\n'
              · subst hc hc2 hc3
                simp [noTripleNl] at h
              · rw [List.takeWhile_cons, if_neg (by simpa using hc3)] at hlen
                simp at hlen
            | [], hlen => simp at hlen
          · rw [List.takeWhile_cons, if_neg (by simpa using hc2)] at hlen
            simp at hlen
        | [], hlen => simp at hlen
      rw [if_neg hcond]
      rw [ih cs (noTripleNl_tail c cs h)]

/-- **C9, counterexample.**  Cleaning can *create* citations: in
`Art. **5** DSG` the bold markers break the citation pattern, so
extraction on the original finds nothing, while extraction on the
cleaned text finds `Art. 5 DSG` — the reference sets differ. -/
theorem clean_extraction_counterexample :
    extractLegalReferences ("Art. **5** DSG".data) = [] ∧
    cleanMarkdown ("Art. **5** DSG".data) = "Art. 5 DSG".data ∧
    extractLegalReferences (cleanMarkdown ("Art. **5** DSG".data))
      = [⟨"DSG".data, "5".data, none, "Art. 5 DSG".data,
          "https://www.fedlex.admin.ch/eli/cc/2022/491/de#art_5".data⟩] ∧
    extractLegalReferences (cleanMarkdown ("Art. **5** DSG".data))
      ≠ extractLegalReferences ("Art. **5** DSG".data) :=
  ⟨by decide, by decide, by decide, by decide⟩

/-- **C9, amended.**  On already-clean text — no markdown delimiter
characters, no run of three or more newlines, and no surrounding
whitespace — `cleanMarkdown` is the identity, so extraction on the
cleaned form returns the same references as on the original.  (On texts
with markdown, cleaning can change the reference set, see the
counterexample.) -/
theorem clean_preserves_extraction (t : List Char)
    (h1 : '*' ∉ t) (h2 : '_' ∉ t) (h3 : btick ∉ t) (h4 : '#' ∉ t)
    (h5 : noTripleNl t = true) (h6 : trimStr t = t) :
    cleanMarkdown t = t ∧
    extractLegalReferences (cleanMarkdown t) = extractLegalReferences t := by
  have hclean : cleanMarkdown t = t := by
    unfold cleanMarkdown
    by_cases he : t.isEmpty
    · rw [if_pos he]
    · rw [if_neg he]
      rw [stripBold_id _ _ h1, stripDelim_id '*' _ _ h1, stripDelim_id '_' _ _ h2,
        stripFence_id _ _ h3, stripDelim_id btick _ _ h3, stripHeaders_id _ _ _ h4,
        collapseNl_id _ _ h5, h6]
  exact ⟨hclean, by rw [hclean]⟩

/-- Witness for `clean_preserves_extraction` at a concrete clean text. -/
theorem clean_preserves_extraction_witness :
    cleanMarkdown ("Nach Art. 5 DSG gilt dies.".data) = "Nach Art. 5 DSG gilt dies.".data ∧
    extractLegalReferences (cleanMarkdown ("Nach Art. 5 DSG gilt dies.".data))
      = extractLegalReferences ("Nach Art. 5 DSG gilt dies.".data) :=
  clean_preserves_extraction ("Nach Art. 5 DSG gilt dies.".data)
    (by decide) (by decide) (by decide) (by decide) (by decide) (by decide)
